import Mathlib

set_option autoImplicit false

/-!
Shallow embedding of cpp/util/libevent_wrapper.h (namespace cert_trans::libevent).
The repository ships only the header; method bodies are modelled from the
specification where noted, faithful to its words.
-/

namespace CertTrans
namespace Libevent

/-- Phases of an HttpRequest, following the spec's state machine
Unstarted, Started, Completing (callback running), Done/Cancelled (resolved). -/
inductive ReqPhase
  | unstarted
  | started
  | callbackRunning
  | resolved
deriving DecidableEq, Repr

/-- Modelled from the spec: the state of one HttpRequest, whose method bodies
(Start, Done, Cancelled, Cancel in libevent_wrapper.cc) are missing from the
sources.  Fields mirror the header's members: cancelled is the cancelled_ flag,
cancelPending records that the asynchronous cancel_ event is armed, selfRef and
connRef record whether self_ref_ and conn_ are non-null, cbCount counts begun
invocations of the completion callback callback_.  cancelWaiting records that an
external thread has entered Cancel() and not yet returned from it. -/
structure ReqState where
  phase : ReqPhase
  cancelled : Bool
  cancelPending : Bool
  cancelWaiting : Bool
  selfRef : Bool
  connRef : Bool
  cbCount : Nat
deriving DecidableEq, Repr

/-- The state of a freshly constructed request: detached, no references held. -/
def ReqState.init : ReqState :=
  { phase := .unstarted, cancelled := false, cancelPending := false,
    cancelWaiting := false, selfRef := false, connRef := false, cbCount := 0 }

/-- Atomic events of the request lifecycle.  Atomicity models the serialization
provided by cancel_lock_: the completion path holds the lock for the whole
callback invocation, so callback begin and end delimit a locked region. -/
inductive ReqEvent
  | start
  | doneBegin
  | cancelFire
  | cbEnd
  | cancelInvoke
  | cancelReturn
deriving DecidableEq, Repr

/-- Modelled from the spec: one atomic step of the HttpRequest lifecycle
(the bodies of HttpRequest::Start, Done, Cancelled and Cancel are not in the
sources).  start is HttpConnection::MakeRequest handing the request to
Start, which takes the self-reference and the connection back-reference.
doneBegin is the underlying HTTP layer invoking Done, which begins the single
completion-callback invocation; cancelFire is the armed cancellation event
invoking the completion path as cancelled; both are enabled only in the
started phase, which makes the invocation unique.  cbEnd is the callback
returning, after which self_ref_ and conn_ are released.  cancelInvoke is an
external thread entering Cancel(); cancelReturn is Cancel() acquiring
cancel_lock_ and returning, which the lock forbids while the callback is
running; if the exchange has not completed it arms the cancellation event. -/
def step (s : ReqState) : ReqEvent → Option ReqState
  | .start =>
      if s.phase = .unstarted then
        some { s with phase := .started, selfRef := true, connRef := true }
      else none
  | .doneBegin =>
      if s.phase = .started then
        some { s with phase := .callbackRunning, cbCount := s.cbCount + 1 }
      else none
  | .cancelFire =>
      if s.phase = .started ∧ s.cancelPending = true then
        some { s with phase := .callbackRunning, cancelPending := false,
                      cbCount := s.cbCount + 1 }
      else none
  | .cbEnd =>
      if s.phase = .callbackRunning then
        some { s with phase := .resolved, selfRef := false, connRef := false }
      else none
  | .cancelInvoke =>
      if (s.phase = .started ∨ s.phase = .callbackRunning)
          ∧ s.cancelWaiting = false ∧ s.cancelled = false then
        some { s with cancelWaiting := true }
      else none
  | .cancelReturn =>
      if s.cancelWaiting = true ∧ ¬s.phase = .callbackRunning then
        if s.phase = .started then
          some { s with cancelWaiting := false, cancelled := true,
                        cancelPending := true }
        else
          some { s with cancelWaiting := false, cancelled := true }
      else none

/-- States reachable from a fresh request by lifecycle steps. -/
inductive Reachable : ReqState → Prop
  | init : Reachable ReqState.init
  | step {s s' : ReqState} (e : ReqEvent) (h : Reachable s)
      (hs : step s e = some s') : Reachable s'

/-- The lifecycle invariant: the callback has begun exactly once iff the
request has reached the callbackRunning or resolved phase, and the
self-reference and connection back-reference are held exactly while the
request is in flight (started or callbackRunning). -/
def ReqInv (s : ReqState) : Prop :=
  (s.cbCount = if s.phase = .callbackRunning ∨ s.phase = .resolved then 1 else 0)
  ∧ (s.selfRef = true ↔ (s.phase = .started ∨ s.phase = .callbackRunning))
  ∧ s.connRef = s.selfRef

/-- The started state reached by start from a fresh request. -/
def reqStarted : ReqState :=
  { phase := .started, cancelled := false, cancelPending := false,
    cancelWaiting := false, selfRef := true, connRef := true, cbCount := 0 }

/-- The state in which the completion callback is running after natural
completion. -/
def reqRunning : ReqState :=
  { phase := .callbackRunning, cancelled := false, cancelPending := false,
    cancelWaiting := false, selfRef := true, connRef := true, cbCount := 1 }

/-- The resolved state after the completion callback has returned. -/
def reqResolved : ReqState :=
  { phase := .resolved, cancelled := false, cancelPending := false,
    cancelWaiting := false, selfRef := false, connRef := false, cbCount := 1 }

/-- The recursive_mutex cancel_lock_ of HttpRequest: free, or held by a thread
with an acquisition depth. -/
inductive LockState
  | free
  | held (owner : Nat) (depth : Nat)
deriving DecidableEq, Repr

/-- Acquisition of a recursive mutex: succeeds when free or already owned by
the calling thread; none means the caller would block. -/
def recursiveAcquire (l : LockState) (t : Nat) : Option LockState :=
  match l with
  | .free => some (.held t 1)
  | .held o d => if o = t then some (.held o (d + 1)) else none

/-- Modelled from the spec: the reentrant path in which Start() acquires
cancel_lock_ on thread t and the underlying HTTP layer synchronously invokes
Done(), which re-acquires the lock on the same thread (the bodies of Start and
Done in libevent_wrapper.cc are not in the sources). -/
def startThenSyncDone (t : Nat) : Option LockState :=
  match recursiveAcquire .free t with
  | none => none
  | some l1 => recursiveAcquire l1 t

/-- Operations on the reactor's closure queue: Add of a closure from the
single external thread, or the wake event firing RunClosures on the reactor
thread. -/
inductive BaseOp (α : Type)
  | add (c : α)
  | runClosures
deriving DecidableEq, Repr

/-- Modelled from the spec: the observable state of Base's cross-thread
closure queue (the bodies of Base::Add and Base::RunClosures in
libevent_wrapper.cc are not in the sources).  closures is the pending queue
closures_ guarded by closures_lock_; executed lists the closures already run,
in execution order, each tagged with the thread it ran on. -/
structure BaseState (α : Type) where
  closures : List α
  executed : List (α × Nat)
deriving DecidableEq, Repr

/-- The empty queue: nothing pending, nothing executed. -/
def BaseState.init (α : Type) : BaseState α := { closures := [], executed := [] }

/-- Modelled from the spec: Add appends the closure to closures_ under the
lock and signals the wake event; RunClosures, invoked by the wake event on
the reactor thread rt, drains the queue and runs every pending closure in
order on that thread. -/
def applyOp {α : Type} (rt : Nat) (s : BaseState α) : BaseOp α → BaseState α
  | .add c => { s with closures := s.closures ++ [c] }
  | .runClosures =>
      { closures := [],
        executed := s.executed ++ s.closures.map (fun c => (c, rt)) }

/-- Applies a sequence of queue operations in order. -/
def applyOps {α : Type} (rt : Nat) (s : BaseState α) (ops : List (BaseOp α)) :
    BaseState α :=
  ops.foldl (applyOp rt) s

/-- The closures submitted by the external thread, in submission order. -/
def submitted {α : Type} : List (BaseOp α) → List α
  | [] => []
  | .add c :: ops => c :: submitted ops
  | .runClosures :: ops => submitted ops

/-- Modelled from the spec: HttpServer's handler registration state, the path
to handler-callback mapping behind handlers_ (the bodies of
HttpServer::AddHandler and HandleRequest in libevent_wrapper.cc are not in
the sources).  Handlers are kept in registration order; callbacks are an
opaque type α. -/
abbrev Handlers (α : Type) : Type := List (String × α)

/-- Modelled from the spec: AddHandler(path, cb) registers a handler for
exact-path matching and returns false, without side effects, when the path is
already registered. -/
def AddHandler {α : Type} (hs : Handlers α) (path : String) (cb : α) :
    Bool × Handlers α :=
  if hs.any (fun h => h.1 = path) then (false, hs)
  else (true, hs ++ [(path, cb)])

/-- Modelled from the spec: HandleRequest dispatches an inbound request to
the handler registered for its exact path, if any. -/
def HandleRequest {α : Type} (hs : Handlers α) (path : String) : Option α :=
  (hs.find? (fun h => h.1 = path)).map Prod.snd

/-- An HttpConnection: its destination (host and port, possibly URI-derived)
and the identity connId of its underlying evhttp_connection conn_, standing
for the independent socket/connection state. -/
structure HttpConnection where
  host : String
  port : Nat
  connId : Nat
deriving DecidableEq, Repr

/-- The allocator of fresh underlying connections: Base::HttpConnectionNew
hands out a connection state never used before, modelled by a counter
dominating every identity allocated so far. -/
structure ConnAlloc where
  nextId : Nat
deriving DecidableEq, Repr

/-- Modelled from the spec: constructing an HttpConnection for a destination
creates a fresh underlying connection via Base::HttpConnectionNew (the
constructor body in libevent_wrapper.cc is not in the sources). -/
def httpConnectionNew (a : ConnAlloc) (host : String) (port : Nat) :
    HttpConnection × ConnAlloc :=
  ({ host := host, port := port, connId := a.nextId }, { nextId := a.nextId + 1 })

/-- Modelled from the spec: Clone() creates a separate socket altogether, a
new HttpConnection with the same destination but independent underlying
connection state (the body in libevent_wrapper.cc is not in the sources). -/
def HttpConnection.Clone (c : HttpConnection) (a : ConnAlloc) :
    HttpConnection × ConnAlloc :=
  httpConnectionNew a c.host c.port

/-- Modelled from the spec: the heap of HttpServer Handler entries.  The
header keeps vector of Handler pointers rather than vector of Handler so
that pointers to entries remain valid; entries lives at stable addresses
(Nat), next is the next fresh address. -/
structure HandlerHeap (α : Type) where
  entries : List (Nat × α)
  next : Nat
deriving DecidableEq, Repr

/-- Modelled from the spec: registering a handler allocates a new entry at a
fresh address and appends its pointer to handlers_, leaving every existing
entry in place. -/
def registerHandler {α : Type} (h : HandlerHeap α) (e : α) : HandlerHeap α :=
  { entries := h.entries ++ [(h.next, e)], next := h.next + 1 }

/-- Reads the entry stored at an address of the handler heap. -/
def readEntry {α : Type} (h : HandlerHeap α) (addr : Nat) : Option α :=
  (h.entries.find? (fun p => p.1 = addr)).map Prod.snd

/-- HttpServer::Bind from the header: void Bind(const char* address,
ev_uint16_t port).  The socketOpened argument stands for whether opening the
listening socket succeeded; the return type is Unit because the declared
return type is void. -/
def HttpServer.Bind (address : String) (port : Nat) (socketOpened : Bool) :
    Unit :=
  ()

/-- Modelled from the spec: the process-global thread-affinity state consulted
by the static Base members, the set of threads currently designated as
reactor (event) threads (the bodies of OnEventThread and
CheckNotOnEventThread in libevent_wrapper.cc are not in the sources). -/
structure GlobalThreadState where
  eventThreads : List Nat
deriving DecidableEq, Repr

/-- Base::OnEventThread from the header is a static member: it consults only
the process-global state and the calling thread, with no Base instance. -/
def Base.OnEventThread (g : GlobalThreadState) (t : Nat) : Bool :=
  g.eventThreads.contains t

/-- Base::CheckNotOnEventThread, the complementary static assertion. -/
def Base.CheckNotOnEventThread (g : GlobalThreadState) (t : Nat) : Bool :=
  !Base.OnEventThread g t

/-- The affinity check as invoked on behalf of a particular Base instance
baseId: being static, it cannot consult baseId. -/
def onEventThreadFor (baseId : Nat) (g : GlobalThreadState) (t : Nat) : Bool :=
  Base.OnEventThread g t

/-! Theorems. -/

/-- Every lifecycle step preserves the request invariant. -/
theorem reqInv_step {s s' : ReqState} (e : ReqEvent) (hinv : ReqInv s)
    (h : step s e = some s') : ReqInv s' := by
  obtain ⟨h1, h2, h3⟩ := hinv
  cases e <;> simp only [step] at h <;> split_ifs at h <;>
    (try cases h) <;>
    simp_all [ReqInv]

/-- Every reachable request state satisfies the invariant. -/
theorem reachable_reqInv {s : ReqState} (h : Reachable s) : ReqInv s := by
  induction h with
  | init => simp [ReqInv, ReqState.init]
  | step e _ hs ih => exact reqInv_step e ih hs

/-- The started state is reachable. -/
theorem reachable_reqStarted : Reachable reqStarted :=
  Reachable.step ReqEvent.start Reachable.init (by decide)

/-- The state with the completion callback running is reachable. -/
theorem reachable_reqRunning : Reachable reqRunning :=
  Reachable.step ReqEvent.doneBegin reachable_reqStarted (by decide)

/-- The resolved state is reachable. -/
theorem reachable_reqResolved : Reachable reqResolved :=
  Reachable.step ReqEvent.cbEnd reachable_reqRunning (by decide)

/-- Claim C1: for every Started HttpRequest, the completion callback is
invoked exactly once in total: in any reachable state the callback has begun
at most once, and once the request resolves (by natural completion, by
cancellation, or by a race between both) it has begun exactly once; no event
sequence yields zero or two invocations. -/
theorem httpRequest_callback_exactly_once (s : ReqState) (h : Reachable s) :
    s.cbCount ≤ 1 ∧ (s.phase = ReqPhase.resolved → s.cbCount = 1) := by
  obtain ⟨h1, _, _⟩ := reachable_reqInv h
  constructor
  · rw [h1]; split <;> omega
  · intro hp; rw [h1, if_pos (Or.inr hp)]

/-- Claim C1 witness: the resolved state reached by start, completion and
callback return has exactly one callback invocation. -/
theorem httpRequest_callback_exactly_once_witness :
    reqResolved.cbCount ≤ 1 ∧
      (reqResolved.phase = ReqPhase.resolved → reqResolved.cbCount = 1) :=
  httpRequest_callback_exactly_once reqResolved reachable_reqResolved

/-- Claim C2: Cancel() cannot return while the completion callback is
executing (cancelReturn is disabled, so a Cancel in progress blocks until the
callback returns); whenever Cancel() does return the callback is not running;
and once the request is resolved — in particular when Cancel returned after
waiting out an in-progress callback — no step ever runs the callback again:
the phase stays resolved and the invocation count stays at one. -/
theorem httpRequest_cancel_blocks_until_callback_returns (s : ReqState)
    (h : Reachable s) :
    (s.phase = ReqPhase.callbackRunning → step s ReqEvent.cancelReturn = none) ∧
    (∀ s', step s ReqEvent.cancelReturn = some s' →
      ¬s'.phase = ReqPhase.callbackRunning) ∧
    (s.phase = ReqPhase.resolved → s.cbCount = 1 ∧
      ∀ (e : ReqEvent) (s' : ReqState), step s e = some s' →
        s'.phase = ReqPhase.resolved ∧ s'.cbCount = 1) := by
  obtain ⟨h1, _, _⟩ := reachable_reqInv h
  refine ⟨?_, ?_, ?_⟩
  · intro hp; simp [step, hp]
  · intro s' hs
    simp only [step] at hs
    split_ifs at hs <;> (try cases hs) <;> simp_all
  · intro hp
    have hcb : s.cbCount = 1 := by rw [h1, if_pos (Or.inr hp)]
    refine ⟨hcb, ?_⟩
    intro e s' hs
    cases e <;> simp only [step] at hs <;> split_ifs at hs <;>
      (try cases hs) <;> simp_all

/-- Claim C2 witness: at the reachable resolved state, Cancel returning finds
no running callback, and no further step ever runs the callback again. -/
theorem httpRequest_cancel_blocks_until_callback_returns_witness :
    (reqResolved.phase = ReqPhase.callbackRunning →
      step reqResolved ReqEvent.cancelReturn = none) ∧
    (∀ s', step reqResolved ReqEvent.cancelReturn = some s' →
      ¬s'.phase = ReqPhase.callbackRunning) ∧
    (reqResolved.phase = ReqPhase.resolved → reqResolved.cbCount = 1 ∧
      ∀ (e : ReqEvent) (s' : ReqState), step reqResolved e = some s' →
        s'.phase = ReqPhase.resolved ∧ s'.cbCount = 1) :=
  httpRequest_cancel_blocks_until_callback_returns reqResolved
    reachable_reqResolved

/-- Claim C5: in every reachable request state, the self-reference self_ref_
and the connection back-reference conn_ are held exactly while the request is
in flight — from Start until the completion callback returns or cancellation
fully completes — hence both are null before Start and both are released
after resolution. -/
theorem httpRequest_refs_held_exactly_in_flight (s : ReqState)
    (h : Reachable s) :
    (s.selfRef = true ↔
      (s.phase = ReqPhase.started ∨ s.phase = ReqPhase.callbackRunning)) ∧
    (s.connRef = true ↔
      (s.phase = ReqPhase.started ∨ s.phase = ReqPhase.callbackRunning)) := by
  obtain ⟨_, h2, h3⟩ := reachable_reqInv h
  exact ⟨h2, by rw [h3]; exact h2⟩

/-- Claim C5 witness: in the reachable started state both references are
held, matching the in-flight phases. -/
theorem httpRequest_refs_held_exactly_in_flight_witness :
    (reqStarted.selfRef = true ↔
      (reqStarted.phase = ReqPhase.started ∨
        reqStarted.phase = ReqPhase.callbackRunning)) ∧
    (reqStarted.connRef = true ↔
      (reqStarted.phase = ReqPhase.started ∨
        reqStarted.phase = ReqPhase.callbackRunning)) :=
  httpRequest_refs_held_exactly_in_flight reqStarted reachable_reqStarted

/-- Claim C4: on the reentrant path where Start() holds cancel_lock_ on
thread t and the underlying layer synchronously invokes the completion path,
the recursive lock is re-acquired by the same thread to depth two: the
acquisition succeeds, so the blocking (deadlocking) branch is never taken. -/
theorem httpRequest_reentrant_lock_no_deadlock (t : Nat) :
    startThenSyncDone t = some (LockState.held t 2) ∧
      startThenSyncDone t ≠ none := by
  constructor <;> simp [startThenSyncDone, recursiveAcquire]

/-- Helper: from any queue state, applying a sequence of operations leaves
the executed closures followed by the still-pending ones equal to the
closures already accounted for plus the newly submitted ones, in order. -/
theorem applyOps_order {α : Type} (rt : Nat) (ops : List (BaseOp α))
    (s : BaseState α) :
    (applyOps rt s ops).executed.map Prod.fst ++ (applyOps rt s ops).closures
      = s.executed.map Prod.fst ++ s.closures ++ submitted ops := by
  induction ops generalizing s with
  | nil => simp [applyOps, submitted]
  | cons op ops ih =>
    have hfold : applyOps rt s (op :: ops) = applyOps rt (applyOp rt s op) ops :=
      rfl
    cases op with
    | add c =>
      rw [hfold, ih]
      simp [applyOp, submitted, List.append_assoc]
    | runClosures =>
      rw [hfold, ih]
      simp [applyOp, submitted, List.map_map, List.append_assoc,
        Function.comp_def]

/-- Helper: every closure executed after a sequence of operations was either
executed already or ran on the reactor thread. -/
theorem applyOps_threads {α : Type} (rt : Nat) (ops : List (BaseOp α))
    (s : BaseState α) :
    ∀ p ∈ (applyOps rt s ops).executed, p ∈ s.executed ∨ p.2 = rt := by
  induction ops generalizing s with
  | nil => intro p hp; exact Or.inl hp
  | cons op ops ih =>
    intro p hp
    have hfold : applyOps rt s (op :: ops) = applyOps rt (applyOp rt s op) ops :=
      rfl
    rw [hfold] at hp
    rcases ih (applyOp rt s op) p hp with hmem | hrt
    · cases op with
      | add c => exact Or.inl hmem
      | runClosures =>
        simp only [applyOp, List.mem_append, List.mem_map] at hmem
        rcases hmem with hmem | ⟨c, _, hc⟩
        · exact Or.inl hmem
        · right; rw [← hc]
    · exact Or.inr hrt

/-- Claim C3: starting from an empty queue, for any finite sequence of Add
submissions from the single external thread interleaved with RunClosures
drains, the closures executed so far followed by the still-pending ones are
exactly the submitted closures in submission order — each is run exactly
once, in order — and every executed closure ran on the reactor thread. -/
theorem base_add_fifo_exactly_once {α : Type} (rt : Nat)
    (ops : List (BaseOp α)) :
    (applyOps rt (BaseState.init α) ops).executed.map Prod.fst
        ++ (applyOps rt (BaseState.init α) ops).closures = submitted ops ∧
    ∀ p ∈ (applyOps rt (BaseState.init α) ops).executed, p.2 = rt := by
  constructor
  · have h := applyOps_order rt ops (BaseState.init α)
    simpa [BaseState.init] using h
  · intro p hp
    rcases applyOps_threads rt ops (BaseState.init α) p hp with hmem | hrt
    · simp [BaseState.init] at hmem
    · exact hrt

/-- Helper: a successful search in the first list is unaffected by appending
a second list. -/
theorem find?_append_of_some {α : Type} (l₁ l₂ : List α) (p : α → Bool)
    (x : α) (h : l₁.find? p = some x) : (l₁ ++ l₂).find? p = some x := by
  induction l₁ with
  | nil => simp [List.find?] at h
  | cons a l ih =>
    rw [List.cons_append]
    cases hp : p a with
    | true =>
      rw [List.find?_cons_of_pos _ hp] at h ⊢
      exact h
    | false =>
      rw [List.find?_cons_of_neg _ (by simp [hp])] at h ⊢
      exact ih h

/-- Helper: a failed search in the first list defers to the second list. -/
theorem find?_append_of_none {α : Type} (l₁ l₂ : List α) (p : α → Bool)
    (h : l₁.find? p = none) : (l₁ ++ l₂).find? p = l₂.find? p := by
  induction l₁ with
  | nil => simp
  | cons a l ih =>
    rw [List.cons_append]
    cases hp : p a with
    | true => rw [List.find?_cons_of_pos _ hp] at h; cases h
    | false =>
      rw [List.find?_cons_of_neg _ (by simp [hp])] at h ⊢
      exact ih h

/-- Helper: when no element satisfies the predicate, the search fails. -/
theorem find?_eq_none_of_any_false {α : Type} (l : List α) (p : α → Bool)
    (h : l.any p = false) : l.find? p = none := by
  induction l with
  | nil => simp
  | cons a l ih =>
    simp only [List.any_cons, Bool.or_eq_false_iff] at h
    rw [List.find?_cons_of_neg _ (by simp [h.1])]
    exact ih h.2

/-- Claim C6: when a path is not yet registered, the first AddHandler for it
succeeds; a second AddHandler with the same path returns false and leaves the
handler state unchanged, and dispatch for that path yields only the handler
registered by the first call. -/
theorem httpServer_addHandler_duplicate_rejected {α : Type} (hs : Handlers α)
    (path : String) (cb1 cb2 : α)
    (h : hs.any (fun q => q.1 = path) = false) :
    AddHandler hs path cb1 = (true, hs ++ [(path, cb1)]) ∧
    AddHandler (hs ++ [(path, cb1)]) path cb2 = (false, hs ++ [(path, cb1)]) ∧
    HandleRequest (hs ++ [(path, cb1)]) path = some cb1 := by
  refine ⟨?_, ?_, ?_⟩
  · simp [AddHandler, h]
  · simp [AddHandler, List.any_append, h]
  · have hnone : hs.find? (fun q => q.1 = path) = none :=
      find?_eq_none_of_any_false hs _ h
    simp [HandleRequest, find?_append_of_none _ _ _ hnone, List.find?]

/-- Claim C6 witness: registering a path on an empty server succeeds;
registering it again fails without side effects, and dispatch returns the
first handler. -/
theorem httpServer_addHandler_duplicate_rejected_witness :
    AddHandler ([] : Handlers Nat) ("p") 0 = (true, [] ++ [(("p"), 0)]) ∧
    AddHandler (([] : Handlers Nat) ++ [(("p"), 0)]) ("p") 1 =
      (false, [] ++ [(("p"), 0)]) ∧
    HandleRequest (([] : Handlers Nat) ++ [(("p"), 0)]) ("p") = some 0 :=
  httpServer_addHandler_duplicate_rejected [] ("p") 0 1 (by decide)

/-- Claim C7: Clone on a connection allocated from the given allocator
returns a connection with the same destination host and port but a freshly
created underlying connection state, distinct from the original's. -/
theorem httpConnection_clone_same_destination (c : HttpConnection)
    (a : ConnAlloc) (h : c.connId < a.nextId) :
    (HttpConnection.Clone c a).1.host = c.host ∧
    (HttpConnection.Clone c a).1.port = c.port ∧
    ¬(HttpConnection.Clone c a).1.connId = c.connId := by
  refine ⟨rfl, rfl, ?_⟩
  simp only [HttpConnection.Clone, httpConnectionNew]
  omega

/-- Claim C7 witness: cloning a concrete connection preserves host and port
and yields a distinct underlying connection identity. -/
theorem httpConnection_clone_same_destination_witness :
    (HttpConnection.Clone { host := ("h"), port := 80, connId := 0 }
        { nextId := 1 }).1.host = ("h") ∧
    (HttpConnection.Clone { host := ("h"), port := 80, connId := 0 }
        { nextId := 1 }).1.port = 80 ∧
    ¬(HttpConnection.Clone { host := ("h"), port := 80, connId := 0 }
        { nextId := 1 }).1.connId = 0 :=
  httpConnection_clone_same_destination { host := ("h"), port := 80, connId := 0 }
    { nextId := 1 } (by decide)

/-- Claim C8: once a handler entry is registered, any sequence of later
registrations leaves the entry readable at the same address with unchanged
contents. -/
theorem httpServer_handler_entries_stable {α : Type} (h : HandlerHeap α)
    (addr : Nat) (v : α) (es : List α) (hv : readEntry h addr = some v) :
    readEntry (es.foldl registerHandler h) addr = some v := by
  induction es generalizing h with
  | nil => simpa using hv
  | cons e es ih =>
    apply ih
    simp only [readEntry, registerHandler] at hv ⊢
    rw [Option.map_eq_some'] at hv
    obtain ⟨q, hq, hsnd⟩ := hv
    rw [find?_append_of_some _ _ _ _ hq, Option.map_some', hsnd]

/-- Claim C8 witness: the entry registered at address zero survives two later
registrations with its contents intact. -/
theorem httpServer_handler_entries_stable_witness :
    readEntry (List.foldl registerHandler
      ({ entries := [(0, 7)], next := 1 } : HandlerHeap Nat) [8, 9]) 0 =
      some 7 :=
  httpServer_handler_entries_stable { entries := [(0, 7)], next := 1 } 0 7
    [8, 9] (by decide)

/-- Claim C9: Bind returns void, so its caller cannot observe through the
return value whether opening the listening socket succeeded — the return is
identical in both cases — whereas AddHandler's bool result does distinguish
successful registration from failure. -/
theorem httpServer_bind_no_error_channel :
    (∀ (a : String) (p : Nat) (ok1 ok2 : Bool),
      HttpServer.Bind a p ok1 = HttpServer.Bind a p ok2) ∧
    ¬(AddHandler ([] : Handlers Nat) ("x") 0).1 =
      (AddHandler ([(("x"), 0)] : Handlers Nat) ("x") 1).1 :=
  ⟨fun _ _ _ _ => rfl, by decide⟩

/-- Claim C10: the thread-affinity check is process-global, not per Base
instance: invoked on behalf of any two Base instances it gives the same
answer, and a thread that is some reactor's event thread satisfies the check
for every Base, with CheckNotOnEventThread failing accordingly. -/
theorem base_onEventThread_process_global (b1 b2 : Nat)
    (g : GlobalThreadState) (t : Nat) (h : Base.OnEventThread g t = true) :
    onEventThreadFor b1 g t = onEventThreadFor b2 g t ∧
    onEventThreadFor b2 g t = true ∧
    Base.CheckNotOnEventThread g t = false := by
  refine ⟨rfl, h, ?_⟩
  simp [Base.CheckNotOnEventThread, h]

/-- Claim C10 witness: with two reactors whose event threads are 5 and 7,
thread 5 passes the affinity check regardless of which Base it is asked
about. -/
theorem base_onEventThread_process_global_witness :
    onEventThreadFor 0 { eventThreads := [5, 7] } 5 =
      onEventThreadFor 1 { eventThreads := [5, 7] } 5 ∧
    onEventThreadFor 1 { eventThreads := [5, 7] } 5 = true ∧
    Base.CheckNotOnEventThread { eventThreads := [5, 7] } 5 = false :=
  base_onEventThread_process_global 0 1 { eventThreads := [5, 7] } 5 (by decide)

end Libevent
end CertTrans
